import Mathlib

/-!
Verification of the subplot grid-layout algorithm and metrics logging table
of `src/utils/estimators.py` (classes `DataLogger` and `PycaretEstimator`),
via a shallow embedding in Lean 4.

Conventions of the embedding:
* Python runtime values reaching `_calc_nrows_ncols` are modelled by `PyVal`
  (an integer, or a non-integer numeric value); Python exceptions raised by
  the modelled code are the constructors of `PyErr`.
* Python `//` and `%` are floor division and floor modulus, modelled by
  `Int.fdiv` and `Int.fmod`.
* The `axes` object returned by `plt.subplots(nrows, ncols)` is a 2-D array
  when `nrows > 1` and `ncols > 1` (entry `axes[i, j]` exists iff `i < nrows`
  and `j < ncols`), a single Axes object when `nrows * ncols == 1`, and a
  flat 1-D array of length `nrows * ncols` otherwise; a flat position `i`
  corresponds to cell `(0, i)` of a one-row grid and to cell `(i, 0)` of a
  one-column grid.  `_get_ax` is modelled as returning the `(row, column)`
  cell of the Axes object it selects, `none` when the selection raises
  `IndexError`.  Indices passed by the code always come from `enumerate`,
  so Python's negative-index wrap-around is outside the model and index
  arguments are `ℕ`.
-/

/-- A Python value as seen by the `isinstance(∙, int)` checks of
`DataLogger._calc_nrows_ncols`: either an `int` or a non-integer numeric
value (e.g. a `float`). -/
inductive PyVal where
  | int (n : ℤ)
  | float (q : ℚ)
deriving DecidableEq

/-- The Python exceptions raised by the modelled code. -/
inductive PyErr where
  | typeError
  | valueError
  | attributeError
  | indexError
deriving DecidableEq

/-- Whether a `PyVal` is a Python `int` (`isinstance(v, int)`). -/
def PyVal.isInt : PyVal → Bool
  | .int _ => true
  | .float _ => false

/-- Shallow embedding of `DataLogger._calc_nrows_ncols` (the method body
reads no attribute of `self`, so it is embedded as a static function):
first the `isinstance` checks raise `TypeError` unless both arguments are
integers, then non-positive values raise `ValueError`; otherwise
`ncols = nplots if nplots < max_ncols else max_ncols` and
`nrows = nplots // ncols + int(nplots % ncols != 0)`. -/
def calc_nrows_ncols (nplots max_ncols : PyVal) : Except PyErr (ℤ × ℤ) :=
  match nplots, max_ncols with
  | .int n, .int m =>
    if n ≤ 0 ∨ m ≤ 0 then
      .error .valueError
    else
      let ncols := if n < m then n else m
      let nrows := n.fdiv ncols + (if n.fmod ncols ≠ 0 then 1 else 0)
      .ok (nrows, ncols)
  | _, _ => .error .typeError

/-- The column count `_calc_nrows_ncols` computes on validated (positive
integer) inputs, viewed in `ℕ`: `nplots if nplots < max_ncols else
max_ncols`.  `calc_nrows_ncols_pos` proves agreement with
`calc_nrows_ncols`. -/
def planCols (n m : ℕ) : ℕ :=
  if n < m then n else m

/-- The row count `_calc_nrows_ncols` computes on validated (positive
integer) inputs, viewed in `ℕ`: `nplots // ncols + int(nplots % ncols != 0)`
(Python floor division agrees with `ℕ` division here).
`calc_nrows_ncols_pos` proves agreement with `calc_nrows_ncols`. -/
def planRows (n m : ℕ) : ℕ :=
  n / planCols n m + (if n % planCols n m ≠ 0 then 1 else 0)

/-- Shallow embedding of `DataLogger._get_ax`, returning the grid cell of
the Axes object selected, `none` when the selection raises `IndexError`
(see the module docstring for the model of the `axes` argument): with
`nrows > 1` and `ncols > 1` it selects `axes[idx // ncols, idx % ncols]`;
with `nrows * ncols == 1` it returns the single Axes object (cell
`(0, 0)`); otherwise it selects `axes[idx]` in the flat array. -/
def get_ax (nrows ncols idx : ℕ) : Option (ℕ × ℕ) :=
  if 1 < nrows ∧ 1 < ncols then
    if idx / ncols < nrows then some (idx / ncols, idx % ncols) else none
  else if nrows * ncols = 1 then
    some (0, 0)
  else if idx < nrows * ncols then
    if nrows = 1 then some (0, idx) else some (idx, 0)
  else
    none

lemma planCols_pos {n m : ℕ} (hn : 0 < n) (hm : 0 < m) : 0 < planCols n m := by
  unfold planCols; split <;> omega

lemma planCols_le_left (n m : ℕ) : planCols n m ≤ n := by
  unfold planCols; split <;> omega

lemma planCols_le_right (n m : ℕ) : planCols n m ≤ m := by
  unfold planCols; split <;> omega

lemma le_planRows_mul {n m : ℕ} (hn : 0 < n) (hm : 0 < m) :
    n ≤ planRows n m * planCols n m := by
  have hc : 0 < planCols n m := planCols_pos hn hm
  set c := planCols n m with hcdef
  unfold planRows
  rw [← hcdef]
  by_cases h : n % c = 0
  · have hdvd : c ∣ n := Nat.dvd_of_mod_eq_zero h
    simp only [h, ne_eq, not_true_eq_false, if_false, Nat.add_zero]
    rw [Nat.div_mul_cancel hdvd]
  · simp only [ne_eq, h, not_false_eq_true, if_true]
    rw [Nat.add_mul, Nat.one_mul]
    have h2 : n / c * c + n % c = n := by
      rw [Nat.mul_comm]; exact Nat.div_add_mod n c
    have h3 : n % c < c := Nat.mod_lt n hc
    generalize hR : n % c = R at h2 h3
    generalize hA : n / c * c = A at h2 ⊢
    omega

lemma planRows_pos {n m : ℕ} (hn : 0 < n) (hm : 0 < m) : 0 < planRows n m := by
  have hc : 0 < planCols n m := planCols_pos hn hm
  have hcl : planCols n m ≤ n := planCols_le_left n m
  unfold planRows
  by_cases h : n % planCols n m = 0
  · have hpos : 0 < n / planCols n m := Nat.div_pos hcl hc
    simp only [h, ne_eq, not_true_eq_false, if_false, Nat.add_zero]
    exact hpos
  · simp only [ne_eq, h, not_false_eq_true, if_true]
    exact Nat.succ_pos _

/-- On positive integer inputs, `calc_nrows_ncols` succeeds and its result
is the pair `(planRows, planCols)` cast to `ℤ`. -/
lemma calc_nrows_ncols_pos (n m : ℕ) (hn : 0 < n) (hm : 0 < m) :
    calc_nrows_ncols (.int n) (.int m) =
      .ok ((planRows n m : ℤ), (planCols n m : ℤ)) := by
  have hcond : ¬((n : ℤ) ≤ 0 ∨ (m : ℤ) ≤ 0) := by
    push_neg
    exact ⟨by exact_mod_cast hn, by exact_mod_cast hm⟩
  have hcol : (if (n : ℤ) < (m : ℤ) then (n : ℤ) else (m : ℤ)) =
      ((planCols n m : ℕ) : ℤ) := by
    by_cases h : n < m
    · rw [if_pos (by exact_mod_cast h)]; simp [planCols, h]
    · rw [if_neg (by exact_mod_cast h)]; simp [planCols, h]
  have hcnn : (0 : ℤ) ≤ ((planCols n m : ℕ) : ℤ) := Int.natCast_nonneg _
  have hfd : (n : ℤ).fdiv ((planCols n m : ℕ) : ℤ) =
      ((n / planCols n m : ℕ) : ℤ) := by
    rw [Int.fdiv_eq_ediv _ hcnn]
    push_cast
    rfl
  have hfm : (n : ℤ).fmod ((planCols n m : ℕ) : ℤ) =
      ((n % planCols n m : ℕ) : ℤ) := by
    rw [Int.fmod_eq_emod _ hcnn]
    push_cast
    rfl
  have hind : (if ((n % planCols n m : ℕ) : ℤ) ≠ 0 then (1 : ℤ) else 0) =
      (((if n % planCols n m ≠ 0 then 1 else 0 : ℕ)) : ℤ) := by
    by_cases h : n % planCols n m = 0
    · rw [if_neg (not_not_intro (by exact_mod_cast h :
        ((n % planCols n m : ℕ) : ℤ) = 0)), if_neg (not_not_intro h)]
      simp
    · rw [if_pos (by exact_mod_cast h :
        ((n % planCols n m : ℕ) : ℤ) ≠ 0), if_pos h]
      simp
  simp only [calc_nrows_ncols]
  rw [if_neg hcond, hcol, hfd, hfm, hind]
  unfold planRows
  push_cast
  rfl

/-- On a plan built from positive `nplots = n` and `max_ncols = m`, every
index valid for the plot count selects the row-major cell
`(idx / ncols, idx % ncols)` without raising `IndexError`. -/
lemma get_ax_plan (n m idx : ℕ) (hn : 0 < n) (hm : 0 < m) (hidx : idx < n) :
    get_ax (planRows n m) (planCols n m) idx =
      some (idx / planCols n m, idx % planCols n m) := by
  have hc : 0 < planCols n m := planCols_pos hn hm
  have hr : 0 < planRows n m := planRows_pos hn hm
  have hb : n ≤ planRows n m * planCols n m := le_planRows_mul hn hm
  set r := planRows n m with hrdef
  set c := planCols n m with hcdef
  have hlt : idx < r * c := lt_of_lt_of_le hidx hb
  unfold get_ax
  by_cases h1 : 1 < r ∧ 1 < c
  · rw [if_pos h1, if_pos ((Nat.div_lt_iff_lt_mul hc).mpr hlt)]
  · rw [if_neg h1]
    by_cases h2 : r * c = 1
    · rw [if_pos h2]
      have hr1 : r = 1 := by
        by_contra hrr
        have h2r : 2 ≤ r := by omega
        have hle : 2 * 1 ≤ r * c := Nat.mul_le_mul h2r hc
        rw [h2] at hle
        omega
      have hc1 : c = 1 := by rw [hr1, Nat.one_mul] at h2; exact h2
      have hidx0 : idx = 0 := by rw [h2] at hlt; omega
      rw [hidx0, hc1]
    · rw [if_neg h2, if_pos hlt]
      by_cases h3 : r = 1
      · rw [if_pos h3]
        have hidx2 : idx < c := by rw [h3, Nat.one_mul] at hlt; exact hlt
        rw [Nat.div_eq_of_lt hidx2, Nat.mod_eq_of_lt hidx2]
      · rw [if_neg h3]
        have hr1 : 1 < r := by omega
        have hc1 : c = 1 := by
          by_contra hcc
          exact h1 ⟨hr1, by omega⟩
        rw [hc1, Nat.div_one, Nat.mod_one]

/-- C1: for every pair of positive integers `plot_count` (= `nplots`) and
`max_columns` (= `max_ncols`), `_calc_nrows_ncols` returns
`columns = min(plot_count, max_columns)` and `rows` computed as floor
division plus one when the remainder is nonzero, which is
`ceil(plot_count / columns)` (characterised by `(rows-1)*columns <
plot_count ≤ rows*columns`); consequently `rows * columns >= plot_count`,
`columns <= max_columns`, and `columns <= plot_count`. -/
theorem calc_nrows_ncols_spec (n m : ℤ) (hn : 0 < n) (hm : 0 < m) :
    ∃ r c : ℤ, calc_nrows_ncols (.int n) (.int m) = .ok (r, c) ∧
      c = min n m ∧
      r = n.fdiv c + (if n.fmod c ≠ 0 then 1 else 0) ∧
      (r - 1) * c < n ∧ n ≤ r * c ∧ c ≤ m ∧ c ≤ n := by
  have hcmin : (if n < m then n else m) = min n m := by
    by_cases h : n < m
    · rw [if_pos h]; exact (min_eq_left h.le).symm
    · rw [if_neg h]; exact (min_eq_right (le_of_not_lt h)).symm
  have hc : 0 < min n m := lt_min hn hm
  refine ⟨n.fdiv (min n m) + (if n.fmod (min n m) ≠ 0 then 1 else 0),
    min n m, ?_, rfl, rfl, ?_, ?_, min_le_right n m, min_le_left n m⟩
  · simp only [calc_nrows_ncols]
    rw [if_neg (by omega), hcmin]
  · have hkey : (n.fmod (min n m)) + (min n m) * (n.fdiv (min n m)) = n :=
      Int.fmod_add_fdiv n (min n m)
    have hRnn : 0 ≤ n.fmod (min n m) := Int.fmod_nonneg' n hc
    have hRlt : n.fmod (min n m) < min n m := Int.fmod_lt_of_pos n hc
    by_cases h : n.fmod (min n m) = 0
    · rw [if_neg (not_not_intro h), Int.add_zero]
      rw [h, Int.zero_add] at hkey
      have hexp : (n.fdiv (min n m) - 1) * min n m =
          min n m * n.fdiv (min n m) - min n m := by ring
      rw [hexp, hkey]
      omega
    · rw [if_pos h]
      have hexp : (n.fdiv (min n m) + 1 - 1) * min n m =
          min n m * n.fdiv (min n m) := by ring
      rw [hexp]
      generalize hA : min n m * n.fdiv (min n m) = A at hkey ⊢
      omega
  · have hkey : (n.fmod (min n m)) + (min n m) * (n.fdiv (min n m)) = n :=
      Int.fmod_add_fdiv n (min n m)
    have hRnn : 0 ≤ n.fmod (min n m) := Int.fmod_nonneg' n hc
    have hRlt : n.fmod (min n m) < min n m := Int.fmod_lt_of_pos n hc
    by_cases h : n.fmod (min n m) = 0
    · rw [if_neg (not_not_intro h), Int.add_zero]
      rw [h, Int.zero_add] at hkey
      rw [Int.mul_comm, hkey]
    · rw [if_pos h]
      have hexp : (n.fdiv (min n m) + 1) * min n m =
          min n m * n.fdiv (min n m) + min n m := by ring
      rw [hexp]
      generalize hA : min n m * n.fdiv (min n m) = A at hkey ⊢
      omega

theorem calc_nrows_ncols_spec_witness :
    ∃ r c : ℤ, calc_nrows_ncols (.int 7) (.int 3) = .ok (r, c) ∧
      c = min 7 3 ∧
      r = (7 : ℤ).fdiv c + (if (7 : ℤ).fmod c ≠ 0 then 1 else 0) ∧
      (r - 1) * c < 7 ∧ (7 : ℤ) ≤ r * c ∧ c ≤ 3 ∧ c ≤ 7 :=
  calc_nrows_ncols_spec 7 3 (by decide) (by decide)

/-- C2: on a plan built from positive inputs, for every valid index
`_get_ax` selects `(index // columns, index % columns)` (row-major) when
`rows > 1` and `columns > 1`, `(0, index)` when `rows == 1` with multiple
columns, `(index, 0)` when `columns == 1` with multiple rows, and `(0, 0)`
when `rows == 1` and `columns == 1`. -/
theorem get_ax_cases (n m idx : ℕ) (hn : 0 < n) (hm : 0 < m)
    (hidx : idx < n) :
    ((1 < planRows n m ∧ 1 < planCols n m) →
      get_ax (planRows n m) (planCols n m) idx =
        some (idx / planCols n m, idx % planCols n m)) ∧
    (planRows n m = 1 → 1 < planCols n m →
      get_ax (planRows n m) (planCols n m) idx = some (0, idx)) ∧
    (1 < planRows n m → planCols n m = 1 →
      get_ax (planRows n m) (planCols n m) idx = some (idx, 0)) ∧
    (planRows n m = 1 → planCols n m = 1 →
      get_ax (planRows n m) (planCols n m) idx = some (0, 0)) := by
  have hmain := get_ax_plan n m idx hn hm hidx
  have hb : n ≤ planRows n m * planCols n m := le_planRows_mul hn hm
  refine ⟨fun _ => hmain, fun hr1 _ => ?_, fun _ hc1 => ?_, fun hr1 hc1 => ?_⟩
  · have hidx2 : idx < planCols n m := by
      rw [hr1, Nat.one_mul] at hb; omega
    rw [hmain, Nat.div_eq_of_lt hidx2, Nat.mod_eq_of_lt hidx2]
  · rw [hmain, hc1, Nat.div_one, Nat.mod_one]
  · have hidx2 : idx = 0 := by rw [hr1, hc1] at hb; omega
    rw [hmain, hidx2, hc1, Nat.zero_div, Nat.mod_one]

theorem get_ax_cases_witness :
    get_ax (planRows 7 3) (planCols 7 3) 4 = some (4 / planCols 7 3, 4 % planCols 7 3) :=
  (get_ax_cases 7 3 4 (by decide) (by decide) (by decide)).1 (by decide)

/-- C3: on a plan built from positive inputs, every valid index maps to a
cell inside `[0, rows) × [0, columns)`, the mapping is injective on valid
indices, and its image has exactly `plot_count` distinct elements. -/
theorem get_ax_bijection (n m : ℕ) (hn : 0 < n) (hm : 0 < m) :
    (∀ i, i < n → ∃ p : ℕ × ℕ,
      get_ax (planRows n m) (planCols n m) i = some p ∧
        p.1 < planRows n m ∧ p.2 < planCols n m) ∧
    (∀ i j, i < n → j < n →
      get_ax (planRows n m) (planCols n m) i =
        get_ax (planRows n m) (planCols n m) j → i = j) ∧
    ((Finset.range n).image
      (fun i => get_ax (planRows n m) (planCols n m) i)).card = n := by
  have hc : 0 < planCols n m := planCols_pos hn hm
  have hb : n ≤ planRows n m * planCols n m := le_planRows_mul hn hm
  have hinj : ∀ i j, i < n → j < n →
      get_ax (planRows n m) (planCols n m) i =
        get_ax (planRows n m) (planCols n m) j → i = j := by
    intro i j hi hj hEq
    rw [get_ax_plan n m i hn hm hi, get_ax_plan n m j hn hm hj] at hEq
    have hdiv : i / planCols n m = j / planCols n m := by
      have := Option.some.inj hEq
      exact congrArg Prod.fst this
    have hmod : i % planCols n m = j % planCols n m := by
      have := Option.some.inj hEq
      exact congrArg Prod.snd this
    have hi2 := Nat.div_add_mod i (planCols n m)
    have hj2 := Nat.div_add_mod j (planCols n m)
    rw [hdiv, hmod] at hi2
    exact hi2.symm.trans hj2
  refine ⟨?_, hinj, ?_⟩
  · intro i hi
    refine ⟨(i / planCols n m, i % planCols n m),
      get_ax_plan n m i hn hm hi, ?_, Nat.mod_lt i hc⟩
    exact (Nat.div_lt_iff_lt_mul hc).mpr (lt_of_lt_of_le hi hb)
  · rw [Finset.card_image_of_injOn, Finset.card_range]
    intro i hi j hj hEq
    exact hinj i j (Finset.mem_range.mp hi) (Finset.mem_range.mp hj) hEq

theorem get_ax_bijection_witness :
    (∀ i, i < 7 → ∃ p : ℕ × ℕ,
      get_ax (planRows 7 3) (planCols 7 3) i = some p ∧
        p.1 < planRows 7 3 ∧ p.2 < planCols 7 3) ∧
    (∀ i j, i < 7 → j < 7 →
      get_ax (planRows 7 3) (planCols 7 3) i =
        get_ax (planRows 7 3) (planCols 7 3) j → i = j) ∧
    ((Finset.range 7).image
      (fun i => get_ax (planRows 7 3) (planCols 7 3) i)).card = 7 :=
  get_ax_bijection 7 3 (by decide) (by decide)

/-- C4 counterexample: the claim says any index outside `[0, plot_count)`
fails with `IndexOutOfRange`, in particular index `5` on a plan built from
`plot_count = 5`; but on the plan built from `plot_count = 5` with
`max_columns = 3` (a `2 × 3` grid) the code performs no bound check against
the plot count and index `5` selects cell `(1, 2)` without raising. -/
theorem get_ax_no_bound_check_counterexample :
    calc_nrows_ncols (.int 5) (.int 3) = .ok (2, 3) ∧
      get_ax 2 3 5 = some (1, 2) ∧ ¬(5 : ℕ) < 5 :=
  ⟨rfl, rfl, by decide⟩

/-- C4 amended: `_get_ax` performs no bound check against the plot count;
it fails (`IndexError` from the axes array) exactly when the selected
location falls outside the physical grid: in the 2-D case
(`rows > 1` and `columns > 1`) when `index // columns >= rows`, in the
flat 1-D case when `index >= rows * columns`, and never in the `1 × 1`
case. -/
theorem get_ax_none_iff (r c idx : ℕ) (_hr : 0 < r) (_hc : 0 < c) :
    get_ax r c idx = none ↔
      ((1 < r ∧ 1 < c ∧ r ≤ idx / c) ∨
       (¬(1 < r ∧ 1 < c) ∧ r * c ≠ 1 ∧ r * c ≤ idx)) := by
  unfold get_ax
  by_cases h1 : 1 < r ∧ 1 < c
  · rw [if_pos h1]
    by_cases h2 : idx / c < r
    · rw [if_pos h2]
      apply iff_of_false
      · simp
      · rintro (⟨_, _, hles⟩ | ⟨hn1, _, _⟩)
        · exact lt_irrefl r (lt_of_le_of_lt hles h2)
        · exact hn1 h1
    · rw [if_neg h2]
      exact iff_of_true rfl (Or.inl ⟨h1.1, h1.2, Nat.le_of_not_lt h2⟩)
  · rw [if_neg h1]
    by_cases h2 : r * c = 1
    · rw [if_pos h2]
      apply iff_of_false
      · simp
      · rintro (⟨ha1, ha2, _⟩ | ⟨_, hb1, _⟩)
        · exact h1 ⟨ha1, ha2⟩
        · exact hb1 h2
    · rw [if_neg h2]
      by_cases h3 : idx < r * c
      · rw [if_pos h3]
        apply iff_of_false
        · split <;> simp
        · rintro (⟨ha1, ha2, _⟩ | ⟨_, _, hge⟩)
          · exact h1 ⟨ha1, ha2⟩
          · exact absurd h3 (not_lt.mpr hge)
      · rw [if_neg h3]
        exact iff_of_true rfl (Or.inr ⟨h1, h2, Nat.le_of_not_lt h3⟩)

theorem get_ax_none_iff_witness : get_ax 1 5 5 = none :=
  (get_ax_none_iff 1 5 5 (by decide) (by decide)).mpr (by decide)

/-- A row value of the metrics table: the metric map passed to
`DataLogger.add` (Python `dict`, insertion-ordered, metric name → numeric
value). -/
abbrev Metrics := List (String × ℚ)

/-- The `pandas.DataFrame` accumulated by `DataLogger`: a column list and
the ordered rows, each keyed by the model name (the DataFrame index). -/
structure Dataframe where
  columns : List String
  rows : List (String × Metrics)
deriving DecidableEq

/-- The state of a `DataLogger`: `_dataframe`, which starts as `None`. -/
structure DataLogger where
  dataframe : Option Dataframe
deriving DecidableEq

/-- `DataLogger.__init__`: `self._dataframe = None`. -/
def DataLogger.init : DataLogger := ⟨none⟩

/-- Semantics of `df.loc[name] = metrics` on a DataFrame indexed by `name`:
if the label exists its row is overwritten in place, otherwise a new row is
appended. -/
def upsertRow (rows : List (String × Metrics)) (name : String)
    (metrics : Metrics) : List (String × Metrics) :=
  match rows with
  | [] => [(name, metrics)]
  | (k, v) :: rest =>
    if k = name then (k, metrics) :: rest
    else (k, v) :: upsertRow rest name metrics

/-- Semantics of reading `df.loc[name]`: the row labelled `name`, if any. -/
def lookupRow (rows : List (String × Metrics)) (name : String) :
    Option Metrics :=
  match rows with
  | [] => none
  | (k, v) :: rest => if k = name then some v else lookupRow rest name

/-- Shallow embedding of `DataLogger.add`: on the first call the DataFrame
is created with the metric map's keys as columns, then
`self._dataframe.loc[name] = metrics` upserts the row. -/
def DataLogger.add (s : DataLogger) (metrics : Metrics) (name : String) :
    DataLogger :=
  match s.dataframe with
  | none => ⟨some ⟨metrics.map Prod.fst, upsertRow [] name metrics⟩⟩
  | some df => ⟨some ⟨df.columns, upsertRow df.rows name metrics⟩⟩

/-- The ordered `(model_name, metric_map)` entries of the log (empty when
`_dataframe` is still `None`). -/
def DataLogger.entries (s : DataLogger) : List (String × Metrics) :=
  match s.dataframe with
  | none => []
  | some df => df.rows

/-- A sequence of `add` calls applied in order. -/
def DataLogger.applyAdds (s : DataLogger) (ops : List (Metrics × String)) :
    DataLogger :=
  ops.foldl (fun t p => t.add p.1 p.2) s

/-- The axis selections performed by the rendering loop of
`DataLogger.show_plots` (`for i, col in enumerate(columns): _get_ax(axes,
i, nrows, ncols)`): each column is paired with the grid cell its bar chart
is drawn into; a failed selection raises `IndexError`. -/
def assign_cells (nrows ncols : ℕ) :
    List String → ℕ → Except PyErr (List (String × ℕ × ℕ))
  | [], _ => .ok []
  | col :: rest, i =>
    match get_ax nrows ncols i with
    | none => .error .indexError
    | some cell =>
      match assign_cells nrows ncols rest (i + 1) with
      | .error e => .error e
      | .ok tail => .ok ((col, cell) :: tail)

/-- Shallow embedding of `DataLogger.show_plots`, returning the list of
(column, grid cell) pairs the bar charts are drawn into.  When
`_dataframe` is still `None`, `len(self._dataframe.columns)` raises
`AttributeError` (`NoneType` has no attribute `columns`) — the failure the
specification's error taxonomy calls `EmptyLogError`.  Otherwise the
layout is computed by `_calc_nrows_ncols(len(columns), max_ncols)` and
each column's axis is selected by `_get_ax`. -/
def DataLogger.show_plots (s : DataLogger) (max_ncols : PyVal) :
    Except PyErr (List (String × ℕ × ℕ)) :=
  match s.dataframe with
  | none => .error .attributeError
  | some df =>
    match calc_nrows_ncols (.int df.columns.length) max_ncols with
    | .error e => .error e
    | .ok (nrows, ncols) => assign_cells nrows.toNat ncols.toNat df.columns 0

/-- C5: whenever `nplots` or `max_ncols` is non-positive or not an integer,
`_calc_nrows_ncols` fails (with one of the two error kinds the
specification groups as `InvalidArgument`); in particular `plan(0, 3)` and
`plan(3, 0)` both fail. -/
theorem calc_nrows_ncols_invalid_args :
    (∀ a b : PyVal,
      (¬a.isInt = true ∨ ¬b.isInt = true ∨
        (∃ n : ℤ, n ≤ 0 ∧ a = .int n) ∨ (∃ n : ℤ, n ≤ 0 ∧ b = .int n)) →
      ∃ e, calc_nrows_ncols a b = .error e) ∧
    calc_nrows_ncols (.int 0) (.int 3) = .error .valueError ∧
    calc_nrows_ncols (.int 3) (.int 0) = .error .valueError := by
  refine ⟨?_, rfl, rfl⟩
  rintro a b h
  cases a with
  | float q => exact ⟨.typeError, rfl⟩
  | int n =>
    cases b with
    | float q => exact ⟨.typeError, rfl⟩
    | int m =>
      refine ⟨.valueError, ?_⟩
      have hcond : n ≤ 0 ∨ m ≤ 0 := by
        rcases h with h | h | ⟨k, hk, hek⟩ | ⟨k, hk, hek⟩
        · exact absurd rfl h
        · exact absurd rfl h
        · injection hek with h2; subst h2; exact Or.inl hk
        · injection hek with h2; subst h2; exact Or.inr hk
      simp only [calc_nrows_ncols]
      rw [if_pos hcond]

theorem calc_nrows_ncols_invalid_args_witness :
    ∃ e, calc_nrows_ncols (.int 0) (.int 3) = .error e :=
  calc_nrows_ncols_invalid_args.1 (.int 0) (.int 3)
    (Or.inr (Or.inr (Or.inl ⟨0, le_refl 0, rfl⟩)))

/-- C9: in `_calc_nrows_ncols` the `isinstance` check takes precedence:
whenever at least one argument is not an integer, `TypeError` is raised
(even if a supplied value is also non-positive), and `ValueError` is
raised exactly when both arguments are integers and at least one is
non-positive. -/
theorem calc_nrows_ncols_type_error_precedence :
    (∀ a b : PyVal, (a.isInt = false ∨ b.isInt = false) →
      calc_nrows_ncols a b = .error .typeError) ∧
    (∀ a b : PyVal, calc_nrows_ncols a b = .error .valueError →
      ∃ n m : ℤ, a = .int n ∧ b = .int m ∧ (n ≤ 0 ∨ m ≤ 0)) ∧
    (∀ n m : ℤ, (n ≤ 0 ∨ m ≤ 0) →
      calc_nrows_ncols (.int n) (.int m) = .error .valueError) := by
  refine ⟨?_, ?_, ?_⟩
  · rintro a b h
    cases a with
    | float q => rfl
    | int n =>
      cases b with
      | float q => rfl
      | int m =>
        rcases h with h | h <;> exact absurd h (by simp [PyVal.isInt])
  · rintro a b h
    cases a with
    | float q => exact absurd (Except.error.inj h) (by decide)
    | int n =>
      cases b with
      | float q => exact absurd (Except.error.inj h) (by decide)
      | int m =>
        by_cases hcon : n ≤ 0 ∨ m ≤ 0
        · exact ⟨n, m, rfl, rfl, hcon⟩
        · exfalso
          simp only [calc_nrows_ncols] at h
          rw [if_neg hcon] at h
          exact Except.noConfusion h
  · rintro n m h
    simp only [calc_nrows_ncols]
    rw [if_pos h]

theorem calc_nrows_ncols_type_error_precedence_witness :
    calc_nrows_ncols (.float (-5/2)) (.int 0) = .error .typeError :=
  calc_nrows_ncols_type_error_precedence.1 (.float (-5/2)) (.int 0)
    (Or.inl rfl)

lemma upsertRow_ne_nil (rows : List (String × Metrics)) (name : String)
    (metrics : Metrics) : upsertRow rows name metrics ≠ [] := by
  cases rows with
  | nil => simp [upsertRow]
  | cons p rest =>
    obtain ⟨k, v⟩ := p
    simp only [upsertRow]
    split <;> simp

lemma applyAdds_rows_ne_nil (ops : List (Metrics × String)) :
    ∀ (s : DataLogger) (df : Dataframe), s.dataframe = some df →
      df.rows ≠ [] →
      ∃ df2, (s.applyAdds ops).dataframe = some df2 ∧ df2.rows ≠ [] := by
  induction ops with
  | nil => exact fun s df hdf hne => ⟨df, hdf, hne⟩
  | cons p rest ih =>
    intro s df hdf hne
    obtain ⟨d⟩ := s
    simp only at hdf
    subst hdf
    exact ih (DataLogger.add ⟨some df⟩ p.1 p.2)
      ⟨df.columns, upsertRow df.rows p.2 p.1⟩ rfl
      (upsertRow_ne_nil df.rows p.2 p.1)

/-- C6: rendering requested on a log with zero entries fails rather than
proceeding: in every reachable `DataLogger` state with no entries the
`_dataframe` is still `None`, so `show_plots` raises on the
`len(self._dataframe.columns)` access (the failure the specification
calls `EmptyLogError`). -/
theorem show_plots_empty_log (ops : List (Metrics × String))
    (h : (DataLogger.init.applyAdds ops).entries = []) :
    (DataLogger.init.applyAdds ops).show_plots (.int 3) =
      .error .attributeError := by
  cases ops with
  | nil => rfl
  | cons p rest =>
    exfalso
    obtain ⟨df2, hdf2, hne⟩ := applyAdds_rows_ne_nil rest
      (DataLogger.init.add p.1 p.2)
      ⟨p.1.map Prod.fst, upsertRow [] p.2 p.1⟩ rfl
      (upsertRow_ne_nil [] p.2 p.1)
    have hent : (DataLogger.init.applyAdds (p :: rest)).entries = df2.rows := by
      show ((DataLogger.init.add p.1 p.2).applyAdds rest).entries = df2.rows
      simp [DataLogger.entries, hdf2]
    rw [hent] at h
    exact hne h

theorem show_plots_empty_log_witness :
    DataLogger.init.show_plots (.int 3) = .error .attributeError :=
  show_plots_empty_log [] rfl

lemma upsertRow_keys_of_mem (rows : List (String × Metrics)) (name : String)
    (metrics : Metrics) (h : name ∈ rows.map Prod.fst) :
    (upsertRow rows name metrics).map Prod.fst = rows.map Prod.fst := by
  induction rows with
  | nil => simp at h
  | cons p rest ih =>
    obtain ⟨k, v⟩ := p
    by_cases hk : k = name
    · simp [upsertRow, hk]
    · have h2 : name ∈ rest.map Prod.fst := by
        rw [List.map_cons] at h
        rcases List.mem_cons.mp h with h3 | h3
        · exact absurd h3.symm hk
        · exact h3
      simp [upsertRow, hk, ih h2]

lemma upsertRow_keys_of_not_mem (rows : List (String × Metrics))
    (name : String) (metrics : Metrics) (h : name ∉ rows.map Prod.fst) :
    (upsertRow rows name metrics).map Prod.fst =
      rows.map Prod.fst ++ [name] := by
  induction rows with
  | nil => simp [upsertRow]
  | cons p rest ih =>
    obtain ⟨k, v⟩ := p
    have hk : ¬k = name := fun hkn => h (by simp [hkn])
    have h2 : name ∉ rest.map Prod.fst := fun hmem => h (by simp [hmem])
    simp [upsertRow, hk, ih h2]

lemma lookupRow_upsertRow_self (rows : List (String × Metrics))
    (name : String) (metrics : Metrics) :
    lookupRow (upsertRow rows name metrics) name = some metrics := by
  induction rows with
  | nil => simp [upsertRow, lookupRow]
  | cons p rest ih =>
    obtain ⟨k, v⟩ := p
    by_cases hk : k = name <;> simp [upsertRow, lookupRow, hk, ih]

lemma lookupRow_upsertRow_other (rows : List (String × Metrics))
    (name k2 : String) (metrics : Metrics) (hne : k2 ≠ name) :
    lookupRow (upsertRow rows name metrics) k2 = lookupRow rows k2 := by
  induction rows with
  | nil =>
    have hn2 : ¬name = k2 := fun h => hne h.symm
    simp [upsertRow, lookupRow, hn2]
  | cons p rest ih =>
    obtain ⟨k, v⟩ := p
    by_cases hk : k = name
    · have hn2 : ¬name = k2 := fun h => hne h.symm
      simp [upsertRow, lookupRow, hk, hn2]
    · by_cases hkk : k = k2
      · subst hkk
        simp [upsertRow, lookupRow, hk]
      · simp [upsertRow, lookupRow, hk, hkk, ih]

lemma add_entries (s : DataLogger) (metrics : Metrics) (name : String) :
    (s.add metrics name).entries = upsertRow s.entries name metrics := by
  obtain ⟨d⟩ := s
  cases d with
  | none => rfl
  | some df => rfl

/-- C7: the table built by successive `add` calls preserves insertion
order of distinct names, and re-adding an existing name overwrites that
row in place: the ordered key list is unchanged when the name is already
present (and gains the name at the end when it is not), the row keyed by
the name now holds the new values, and every other row is untouched. -/
theorem add_upsert_semantics (s : DataLogger) (metrics : Metrics)
    (name : String) :
    ((s.add metrics name).entries.map Prod.fst =
      if name ∈ s.entries.map Prod.fst then s.entries.map Prod.fst
      else s.entries.map Prod.fst ++ [name]) ∧
    lookupRow (s.add metrics name).entries name = some metrics ∧
    (∀ k, k ≠ name →
      lookupRow (s.add metrics name).entries k = lookupRow s.entries k) := by
  rw [add_entries]
  refine ⟨?_, lookupRow_upsertRow_self s.entries name metrics,
    fun k hk => lookupRow_upsertRow_other s.entries name k metrics hk⟩
  by_cases h : name ∈ s.entries.map Prod.fst
  · rw [if_pos h, upsertRow_keys_of_mem s.entries name metrics h]
  · rw [if_neg h, upsertRow_keys_of_not_mem s.entries name metrics h]

theorem add_upsert_semantics_witness :
    lookupRow (((DataLogger.init.add
        [("Accuracy", (9 : ℚ)/10), ("F1", 8/10)] "modelA").add
        [("Accuracy", (95 : ℚ)/100), ("F1", 85/100)] "modelB").entries)
      "modelA" =
    lookupRow ((DataLogger.init.add
        [("Accuracy", (9 : ℚ)/10), ("F1", 8/10)] "modelA").entries)
      "modelA" :=
  (add_upsert_semantics
    (DataLogger.init.add [("Accuracy", (9 : ℚ)/10), ("F1", 8/10)] "modelA")
    [("Accuracy", (95 : ℚ)/100), ("F1", 85/100)] "modelB").2.2
    "modelA" (by decide)

/-- The target inference of `PycaretEstimator.__init__`:
`list(set(train_data.columns) - set(test_data.columns))[0]`, the first
element of the (deduplicated) set difference; `none` models the
`IndexError` raised when the difference is empty. -/
def infer_target (trainCols testCols : List String) : Option String :=
  ((trainCols.filter (fun c => decide (c ∉ testCols))).dedup).head?

/-- C8: when exactly one column is present in the training table but
absent from the test table, the inferred prediction target is that
column. -/
theorem infer_target_unique (trainCols testCols : List String) (t : String)
    (h1 : t ∈ trainCols) (h2 : t ∉ testCols)
    (h3 : ∀ c ∈ trainCols, c ∉ testCols → c = t) :
    infer_target trainCols testCols = some t := by
  unfold infer_target
  have hmem : t ∈ trainCols.filter (fun c => decide (c ∉ testCols)) :=
    List.mem_filter.mpr ⟨h1, by simpa using h2⟩
  have hall : ∀ x ∈ trainCols.filter (fun c => decide (c ∉ testCols)),
      x = t := by
    intro x hx
    obtain ⟨hx1, hx2⟩ := List.mem_filter.mp hx
    exact h3 x hx1 (by simpa using hx2)
  have hmemd : t ∈ (trainCols.filter (fun c => decide (c ∉ testCols))).dedup :=
    List.mem_dedup.mpr hmem
  cases hd : (trainCols.filter (fun c => decide (c ∉ testCols))).dedup with
  | nil => rw [hd] at hmemd; simp at hmemd
  | cons a l =>
    have ha : a ∈ (trainCols.filter (fun c => decide (c ∉ testCols))).dedup := by
      rw [hd]; exact List.mem_cons_self a l
    have hat : a = t := hall a (List.mem_dedup.mp ha)
    simp [hat]

theorem infer_target_unique_witness :
    infer_target ["PassengerId", "Survived"] ["PassengerId"] =
      some "Survived" :=
  infer_target_unique ["PassengerId", "Survived"] ["PassengerId"] "Survived"
    (by decide) (by decide) (by decide)

/-- State-passing embedding of the method call
`self._calc_nrows_ncols(...)`: the method body reads and writes no
attribute of `self`, so the state component is returned unchanged. -/
def DataLogger.calc_nrows_ncolsM (s : DataLogger)
    (nplots max_ncols : PyVal) : Except PyErr (ℤ × ℤ) × DataLogger :=
  (calc_nrows_ncols nplots max_ncols, s)

/-- State-passing embedding of the method call `self._get_ax(...)`: the
method body reads and writes no attribute of `self`, so the state
component is returned unchanged. -/
def DataLogger.get_axM (s : DataLogger) (nrows ncols idx : ℕ) :
    Option (ℕ × ℕ) × DataLogger :=
  (get_ax nrows ncols idx, s)

/-- State-passing embedding of the method call `self.show_plots(...)`:
the method body only reads `self._dataframe`, so the state component is
returned unchanged. -/
def DataLogger.show_plotsM (s : DataLogger) (max_ncols : PyVal) :
    Except PyErr (List (String × ℕ × ℕ)) × DataLogger :=
  (s.show_plots max_ncols, s)

/-- C10: the layout computations are read-only with respect to the log:
`_calc_nrows_ncols`, `_get_ax` (and `show_plots`) leave the logger state
unchanged, while `add` does mutate it. -/
theorem layout_ops_leave_state :
    (∀ (s : DataLogger) (a b : PyVal), (s.calc_nrows_ncolsM a b).2 = s) ∧
    (∀ (s : DataLogger) (r c i : ℕ), (s.get_axM r c i).2 = s) ∧
    (∀ (s : DataLogger) (a : PyVal), (s.show_plotsM a).2 = s) ∧
    DataLogger.init.add [("Accuracy", (9 : ℚ)/10)] "modelA" ≠
      DataLogger.init := by
  refine ⟨fun _ _ _ => rfl, fun _ _ _ _ => rfl, fun _ _ => rfl, ?_⟩
  intro h
  have h2 := congrArg DataLogger.dataframe h
  simp [DataLogger.add, DataLogger.init] at h2

theorem layout_ops_leave_state_witness :
    (DataLogger.init.calc_nrows_ncolsM (.int 3) (.int 3)).2 =
      DataLogger.init :=
  layout_ops_leave_state.1 DataLogger.init (.int 3) (.int 3)
